import Mathlib

/-!
# Verification of the next-rc execution substrate

Shallow embedding of the core subsystems of the multi-runtime sandboxed
code-execution controller: the eBPF (packet-filter) bytecode verifier, the
fixed-capacity memory-slot pools, the Wasm (portable-bytecode) backend's
instantiate/execute paths, and the dynamic-language (Python) scheduler.
Each definition is translated from the corresponding Rust source file;
theorems settle the specification's claims about them.
-/

deriving instance DecidableEq for Except

namespace NextRc

/-! ## eBPF verifier (src/runtimes/ebpf/src/verifier.rs) -/

/-- An eBPF instruction as parsed by `Verifier::parse_instruction`:
1-byte opcode, 4-bit dst/src registers, 16-bit signed offset,
32-bit signed immediate. -/
structure Instruction where
  opcode : Nat
  dst_reg : Nat
  src_reg : Nat
  offset : Int
  immediate : Int
deriving DecidableEq, Repr

/-- Typed rejection verdicts, one constructor per `bail!` site in
`verifier.rs` (the Rust code raises `anyhow` errors with these messages). -/
inductive VerifyError where
  | invalidLength
  | programTooLarge (count max : Nat)
  | insufficientBytes
  | invalidRegister (pc : Nat)
  | invalidOpcode (op : Nat) (pc : Nat)
  | memoryAccessDenied (pc : Nat)
  | negativeBranchTarget (pc : Nat)
  | invalidBranchTarget (target : Int)
  | invalidHelper (funcId : Int) (pc : Nat)
deriving DecidableEq, Repr

/-- Discriminator for the "Memory access not allowed in safe mode" rejection. -/
def VerifyError.isMemoryAccessDenied : VerifyError → Bool
  | .memoryAccessDenied _ => true
  | _ => false

/-- `struct Verifier { max_instructions: usize, unsafe_allowed: bool }`. -/
structure Verifier where
  max_instructions : Nat
  unsafe_allowed : Bool
deriving DecidableEq, Repr

/-- `Verifier::new()`: 4096 instructions max, safe mode. -/
def Verifier.new : Verifier := { max_instructions := 4096, unsafe_allowed := false }

/-- `Verifier::with_config(max_instructions, unsafe_allowed)`. -/
def Verifier.with_config (max_instructions : Nat) (unsafe_allowed : Bool) : Verifier :=
  { max_instructions := max_instructions, unsafe_allowed := unsafe_allowed }

/-- Two's-complement reading of a 16-bit little-endian value
(`i16::from_le_bytes`). -/
def toSigned16 (x : Nat) : Int :=
  let v := x % 65536
  if v < 32768 then (v : Int) else (v : Int) - 65536

/-- Two's-complement reading of a 32-bit little-endian value
(`i32::from_le_bytes`). -/
def toSigned32 (x : Nat) : Int :=
  let v := x % 4294967296
  if v < 2147483648 then (v : Int) else (v : Int) - 4294967296

/-- Two's-complement i32 wrap of an integer (`as i32` conversion and
release-mode i32 arithmetic). -/
def wrap32 (x : Int) : Int := (x + 2147483648) % 4294967296 - 2147483648

/-- Byte `i` of the program. Bytecode is embedded as `List Nat`; the `% 256`
records that Rust's `&[u8]` elements are bytes (it is the identity on genuine
byte values). Out-of-range reads default to 0; they never occur on the paths
below because every access is guarded by a length check. -/
def byte (code : List Nat) (i : Nat) : Nat := code.getD i 0 % 256

/-- `Verifier::parse_instruction` on the 8-byte slice starting at `pc`.
The Rust function receives `&bytecode[pc..pc + 8]` and bails when fewer than
8 bytes are available (in Rust the slice operation itself would panic first;
both are modelled as the `insufficientBytes` rejection, and neither is
reachable from `verify` because `pc` stays a multiple of 8 below the length,
which is itself a multiple of 8). -/
def parse_instruction (code : List Nat) (pc : Nat) : Except VerifyError Instruction :=
  if code.length < pc + 8 then .error .insufficientBytes
  else .ok
    { opcode := byte code pc
      dst_reg := byte code (pc + 1) % 16
      src_reg := byte code (pc + 1) / 16 % 16
      offset := toSigned16 (byte code (pc + 2) + 256 * byte code (pc + 3))
      immediate := toSigned32 (byte code (pc + 4) + 256 * byte code (pc + 5) +
        65536 * byte code (pc + 6) + 16777216 * byte code (pc + 7)) }

/-- The ALU opcode allow-list of `verify_instruction`. -/
def aluOpcodes : List Nat :=
  [0x07, 0x0f, 0x17, 0x1f, 0x27, 0x2f, 0x37, 0x3f,
   0x47, 0x4f, 0x57, 0x5f, 0x67, 0x6f, 0x77, 0x7f,
   0x84, 0x87, 0x8f, 0x97, 0x9f, 0xa7, 0xaf, 0xb7,
   0xbf, 0xc7, 0xcf, 0xd7, 0xdf]

/-- The jump opcode allow-list of `verify_instruction` (identical to the
list matched by `is_branch_instruction`). -/
def jumpOpcodes : List Nat :=
  [0x05, 0x15, 0x1d, 0x25, 0x2d, 0x35, 0x3d, 0x45,
   0x4d, 0x55, 0x5d, 0x65, 0x6d, 0x75, 0x7d, 0x85, 0x8d]

/-- The load/store opcode list of `verify_instruction`. -/
def loadStoreOpcodes : List Nat :=
  [0x61, 0x69, 0x71, 0x79, 0x62, 0x6a, 0x72, 0x7a,
   0x63, 0x6b, 0x73, 0x7b]

/-- `Verifier::verify_instruction`: register bounds, then the opcode match
(ALU, jump, load/store gated on `unsafe_allowed`, exit, otherwise invalid). -/
def Verifier.verify_instruction (v : Verifier) (insn : Instruction) (pc : Nat) :
    Except VerifyError Unit :=
  if insn.dst_reg > 10 ∨ insn.src_reg > 10 then .error (.invalidRegister pc)
  else if insn.opcode ∈ aluOpcodes then .ok ()
  else if insn.opcode ∈ jumpOpcodes then .ok ()
  else if insn.opcode ∈ loadStoreOpcodes then
    if v.unsafe_allowed then .ok () else .error (.memoryAccessDenied pc)
  else if insn.opcode = 0x95 then .ok ()
  else .error (.invalidOpcode insn.opcode pc)

/-- `Verifier::is_branch_instruction`. -/
def Verifier.is_branch_instruction (_v : Verifier) (insn : Instruction) : Bool :=
  decide (insn.opcode ∈ jumpOpcodes)

/-- `Verifier::calculate_branch_target`:
`offset = insn.offset as i32 * 8` (exact: the i16 range times 8 fits i32),
`target = (pc as i32) + 8 + offset` (modelled with the two's-complement i32
wrap of the `as i32` cast and of release-mode addition), bail if negative. -/
def Verifier.calculate_branch_target (pc : Nat) (insn : Instruction) :
    Except VerifyError Int :=
  let offset := insn.offset * 8
  let target := wrap32 (wrap32 (pc : Int) + 8 + offset)
  if target < 0 then .error (.negativeBranchTarget pc) else .ok target

/-- The per-instruction loop of `Verifier::verify` (`while pc < bytecode.len()`):
parses and checks each instruction and collects branch targets in program
order. `n` is the number of remaining iterations; `verify` starts it at
`bytecode.len() / 8`, which equals the Rust loop's iteration count because the
length is a multiple of 8 by the time the loop runs. -/
def Verifier.verifyInsns (v : Verifier) (code : List Nat) :
    Nat → Nat → Except VerifyError (List Int)
  | 0, _ => .ok []
  | n + 1, pc =>
    match parse_instruction code pc with
    | .error e => .error e
    | .ok insn =>
      match v.verify_instruction insn pc with
      | .error e => .error e
      | .ok () =>
        if v.is_branch_instruction insn then
          match Verifier.calculate_branch_target pc insn with
          | .error e => .error e
          | .ok t =>
            match v.verifyInsns code n (pc + 8) with
            | .error e => .error e
            | .ok ts => .ok (t :: ts)
        else
          v.verifyInsns code n (pc + 8)

/-- The branch-target validation loop of `Verifier::verify`
(`for target in branch_targets`): each target must be below the program
length and 8-byte aligned. Targets are nonnegative here (guaranteed by
`calculate_branch_target`), so `Int.emod` coincides with the Rust `usize`
remainder. -/
def checkBranchTargets : List Int → Nat → Except VerifyError Unit
  | [], _ => .ok ()
  | t :: ts, len =>
    if t ≥ (len : Int) ∨ t % 8 ≠ 0 then .error (.invalidBranchTarget t)
    else checkBranchTargets ts len

/-- `Verifier::verify_memory_access`: walks the program re-parsing each
instruction; the opcode match only emits a trace message, so the walk can
only fail through `parse_instruction` (unreachable from `verify`). -/
def Verifier.verify_memory_access (v : Verifier) (code : List Nat) :
    Nat → Nat → Except VerifyError Unit
  | 0, _ => .ok ()
  | n + 1, pc =>
    match parse_instruction code pc with
    | .error e => .error e
    | .ok _ => v.verify_memory_access code n (pc + 8)

/-- `Verifier::is_valid_helper`: allowed helper ids `1..=10`, `20..=30`,
`40..=50`. -/
def is_valid_helper (func_id : Int) : Bool :=
  decide ((1 ≤ func_id ∧ func_id ≤ 10) ∨ (20 ≤ func_id ∧ func_id ≤ 30) ∨
    (40 ≤ func_id ∧ func_id ≤ 50))

/-- `Verifier::verify_function_calls`: every `call` (opcode 0x85) must name
a valid helper id in its immediate. -/
def Verifier.verify_function_calls (v : Verifier) (code : List Nat) :
    Nat → Nat → Except VerifyError Unit
  | 0, _ => .ok ()
  | n + 1, pc =>
    match parse_instruction code pc with
    | .error e => .error e
    | .ok insn =>
      if insn.opcode = 0x85 then
        if is_valid_helper insn.immediate then
          v.verify_function_calls code n (pc + 8)
        else .error (.invalidHelper insn.immediate pc)
      else v.verify_function_calls code n (pc + 8)

/-- `Verifier::verify`: length multiple of 8, instruction count within
`max_instructions`, then the per-instruction loop, branch-target validation,
`verify_memory_access`, `verify_function_calls` — in source order. -/
def Verifier.verify (v : Verifier) (code : List Nat) : Except VerifyError Unit :=
  if code.length % 8 ≠ 0 then .error .invalidLength
  else
    let instruction_count := code.length / 8
    if instruction_count > v.max_instructions then
      .error (.programTooLarge instruction_count v.max_instructions)
    else
      match v.verifyInsns code instruction_count 0 with
      | .error e => .error e
      | .ok branch_targets =>
        match checkBranchTargets branch_targets code.length with
        | .error e => .error e
        | .ok () =>
          match v.verify_memory_access code instruction_count 0 with
          | .error e => .error e
          | .ok () => v.verify_function_calls code instruction_count 0

/-- `verify` takes `&self`: the `Verifier` carries only the two immutable
configuration fields and the method builds only local state, so a call
observably leaves the verifier unchanged. `callVerify` threads that state
explicitly to express the claim. -/
def callVerify (s : Verifier) (code : List Nat) :
    Except VerifyError Unit × Verifier :=
  (s.verify code, s)

/-- A program "contains a load/store-class instruction" when some complete
8-byte instruction slot starts with one of the load/store opcodes. -/
def containsLoadStore (code : List Nat) : Bool :=
  (List.range (code.length / 8)).any fun k => decide (byte code (8 * k) ∈ loadStoreOpcodes)

/-- The spec's "verifier rejects unsafe load" scenario program:
`LDXW r0, [r1]` then `EXIT`. -/
def unsafeLoadProgram : List Nat :=
  [0x61, 0x10, 0x00, 0x00, 0x00, 0x00, 0x00, 0x00,
   0x95, 0x00, 0x00, 0x00, 0x00, 0x00, 0x00, 0x00]

/-- The 8 bytes of one `EXIT` instruction (opcode 0x95). -/
def exitBytes : List Nat := [0x95, 0x00, 0x00, 0x00, 0x00, 0x00, 0x00, 0x00]

/-- The 8 bytes of one `JA +0` jump instruction (opcode 0x05, offset 0). -/
def jaBytes : List Nat := [0x05, 0x00, 0x00, 0x00, 0x00, 0x00, 0x00, 0x00]

/-- The parsed form of `exitBytes`. -/
def exitInsn : Instruction :=
  { opcode := 0x95, dst_reg := 0, src_reg := 0, offset := 0, immediate := 0 }

/-- The parsed form of `jaBytes`. -/
def jaInsn : Instruction :=
  { opcode := 0x05, dst_reg := 0, src_reg := 0, offset := 0, immediate := 0 }

/-- A 2^32-byte program: 536870911 `EXIT` instructions followed by one
`JA +0` at pc = 2^32 - 8. For the final jump, `pc as i32` truncates
0xFFFFFFF8 to -8, so `calculate_branch_target` computes -8 + 8 + 0 = 0,
which passes every check — although the target of the claim's formula,
pc + 8 + offset * 8 = 2^32, equals the program length. -/
def hugeProgram : List Nat :=
  (List.replicate 536870911 exitBytes).flatten ++ jaBytes

/-! ## Shared data model (src/runtimes/shared/src/security.rs, lib.rs) -/

/-- `TrustLevel`: Low / Medium / High. -/
inductive TrustLevel where
  | Low
  | Medium
  | High
deriving DecidableEq, Repr

/-- `Capability` (shared/src/security.rs). -/
inductive Capability where
  | NetworkAccess
  | FileSystemRead
  | FileSystemWrite
  | ProcessSpawn
  | SystemTime
  | EnvironmentVariables
  | SharedMemory
  | CpuIntensive
  | GpuAccess
deriving DecidableEq, Repr

/-- `Permissions`: a capability set plus a trust level (the Rust `HashSet`
is embedded as a list of capabilities). -/
structure Permissions where
  capabilities : List Capability
  trust_level : TrustLevel
deriving DecidableEq, Repr

/-- `Permissions::new`: the default capability set of each trust level. -/
def Permissions.new (trust_level : TrustLevel) : Permissions :=
  { trust_level := trust_level
    capabilities :=
      match trust_level with
      | .Low => []
      | .Medium => [.SystemTime, .FileSystemRead]
      | .High => [.NetworkAccess, .FileSystemRead, .FileSystemWrite,
                  .SystemTime, .EnvironmentVariables, .SharedMemory] }

/-- `ExecutionConfig` (shared/src/lib.rs); `timeout : Duration` is embedded
as a number of milliseconds. -/
structure ExecutionConfig where
  timeout : Nat
  memory_limit : Nat
  permissions : Permissions
deriving DecidableEq, Repr

/-- `ExecutionResult` (shared/src/lib.rs); output bytes as `List Nat`,
`execution_time : Duration` as milliseconds. -/
structure ExecutionResult where
  success : Bool
  output : Option (List Nat)
  error : Option String
  execution_time : Nat
  memory_used : Nat
deriving DecidableEq, Repr

/-! ## Memory-slot pool
(src/runtimes/ebpf/src/memory_pool.rs and src/runtimes/wasm/src/memory_pool.rs
— the two files implement the same `MemoryPool` trait with identical
queue/counter logic; they differ only in the zeroing mechanism on `release`,
`libc::memset(ptr, 0, size)` for the eBPF pool versus
`madvise(MADV_DONTNEED)` for the Wasm pool's pre-faulted private anonymous
mapping, whose subsequent reads are zero-fill — both are embedded as zeroing
the slot's bytes.) -/

/-- `MemorySlot` (shared/src/memory.rs): the `ptr: NonNull<u8>` base pointer
is embedded by indexing the pool's byte store with `slot_id` (slots are
backed by disjoint allocations). -/
structure MemorySlot where
  slot_id : Nat
  size : Nat
deriving DecidableEq, Repr

namespace MemoryPool

/-- Pool state: the free queue (`Mutex<VecDeque<MemorySlot>>`, head = front),
the fixed totals, the `available_count` atomic, and the backing byte store
(`raw_memory` / `mmaps`) as a map slot-id → byte-index → byte. -/
structure State where
  slots : List MemorySlot
  total_slots : Nat
  slot_size : Nat
  available_count : Nat
  mem : Nat → Nat → Nat

/-- `EbpfMemoryPool::new` / `WasmMemoryPool::new`: pre-allocates
`total_slots` zeroed slots of `slot_size` bytes with slot ids `0..total_slots`
and sets the available counter to the total. -/
def State.new (total_slots slot_size : Nat) : State :=
  { slots := (List.range total_slots).map fun i => { slot_id := i, size := slot_size }
    total_slots := total_slots
    slot_size := slot_size
    available_count := total_slots
    mem := fun _ _ => 0 }

/-- `allocate`: pop the front of the free queue and decrement the counter;
fail (without blocking or changing state) when the queue is empty. The Rust
error is `anyhow!("No available memory slots")`. -/
def allocate (st : State) : Except String (MemorySlot × State) :=
  match st.slots with
  | [] => .error "No available memory slots"
  | s :: rest =>
    .ok (s, { st with slots := rest, available_count := st.available_count - 1 })

/-- `release`: zero the slot's bytes (memset for the eBPF pool, madvise
zero-fill for the Wasm pool), push the slot to the back of the free queue and
increment the counter. Infallible. -/
def release (st : State) (slot : MemorySlot) : State :=
  { st with
    mem := fun id j => if id = slot.slot_id ∧ j < slot.size then 0 else st.mem id j
    slots := st.slots ++ [slot]
    available_count := st.available_count + 1 }

/-- One client operation against a pool: an `allocate` call, a `release` of a
previously allocated slot, or a byte write through an owned slot's pointer
(instances own their slot exclusively between allocate and release). -/
inductive Op where
  | alloc : Op
  | free : MemorySlot → Op
  | write : MemorySlot → Nat → Nat → Op

/-- One step of a well-formed client interaction. The second component is
the multiset of currently checked-out slots; a `free` of a slot that is not
checked out, or a `write` outside an owned slot's bytes, is skipped (such
calls are outside the pool's contract). -/
def step : State × List MemorySlot → Op → State × List MemorySlot
  | (st, out), .alloc =>
    match allocate st with
    | .ok (s, st') => (st', s :: out)
    | .error _ => (st, out)
  | (st, out), .free s =>
    if s ∈ out then (release st s, out.erase s) else (st, out)
  | (st, out), .write s i v =>
    if s ∈ out ∧ i < s.size then
      ({ st with mem := fun id j => if id = s.slot_id ∧ j = i then v else st.mem id j }, out)
    else (st, out)

/-- Run a finite sequence of client operations. -/
def run (p : State × List MemorySlot) : List Op → State × List MemorySlot
  | [] => p
  | op :: ops => run (step p op) ops

/-- The pool's core invariant, relating the state to the multiset `out` of
checked-out slots: the atomic counter equals the free-queue length, every
slot is in exactly one of the free queue and `out` (their lengths sum to the
fixed total and slot ids never repeat), and every queued slot's bytes are
zero. -/
def Inv (st : State) (out : List MemorySlot) : Prop :=
  st.available_count = st.slots.length ∧
  st.slots.length + out.length = st.total_slots ∧
  (∀ s ∈ st.slots, ∀ i, i < s.size → st.mem s.slot_id i = 0) ∧
  ((st.slots ++ out).map MemorySlot.slot_id).Nodup

end MemoryPool

/-! ## Wasm backend: instance execution and instantiation
(src/runtimes/wasm/src/instance.rs, runtime.rs) -/

/-- Outcome of the race inside `InstanceManager::execute_instance` between
the spawned worker task and the watchdog timer: the worker's result arrives
in time, the result channel is closed (worker panicked), or the deadline
elapses first. -/
inductive WorkerOutcome where
  | completed : Except String ExecutionResult → WorkerOutcome
  | channelClosed : WorkerOutcome
  | deadlineElapsed : WorkerOutcome

/-- The watchdog deadline of `execute_instance`:
`config.timeout + Duration::from_millis(100)` (in milliseconds). -/
def executeDeadline (config : ExecutionConfig) : Nat := config.timeout + 100

/-- The value returned by `InstanceManager::execute_instance` for each race
outcome (`match timeout(config.timeout + 100ms, rx).await`): a completed
worker's result is passed through, a closed channel is the error
`"Execution task failed"`, and an elapsed deadline is an `Ok` result with
`success = false` and `error = Some("Execution timeout")`. -/
def execute_instance_result (config : ExecutionConfig) :
    WorkerOutcome → Except String ExecutionResult
  | .completed r => r
  | .channelClosed => .error "Execution task failed"
  | .deadlineElapsed =>
    .ok { success := false
          output := none
          error := some "Execution timeout"
          execution_time := config.timeout
          memory_used := 0 }

namespace WasmRuntime

/-- The observable backend state touched by `WasmRuntime::instantiate`:
the memory pool and the instance registry (instance-id → owned slot). -/
structure RtState where
  pool : MemoryPool.State
  instances : List (Nat × MemorySlot)

/-- What `InstanceManager::create_instance` does with a module: the
`linker.instantiate(&mut store, &module)` step either succeeds or fails
(e.g. the module imports a function the linker does not provide); the flag
records which. A missing `"_start"` export does not fail creation
(`get_typed_func(..).ok()`). -/
structure ModuleModel where
  instantiation_fails : Bool

/-- `WasmRuntime::instantiate`: look up the module in the cache (error if
absent, state untouched), `memory_pool.allocate()` (error if exhausted,
state untouched), then `create_instance`. When `linker.instantiate` fails,
the `?` operator propagates the error and the `MemorySlot` local is dropped;
`MemorySlot` has no `Drop` impl that returns it to the pool, so the pool
keeps the slot popped and the counter decremented. On success the instance
is registered owning the slot. -/
def instantiate (st : RtState) (cached_module : Option ModuleModel)
    (new_id : Nat) : Except String Nat × RtState :=
  match cached_module with
  | none => (.error "Module not found", st)
  | some m =>
    match MemoryPool.allocate st.pool with
    | .error e => (.error e, st)
    | .ok (slot, pool') =>
      if m.instantiation_fails then
        (.error "failed to instantiate module", { st with pool := pool' })
      else
        (.ok new_id,
         { pool := pool', instances := (new_id, slot) :: st.instances })

end WasmRuntime

/-! ## Python scheduler (src/runtimes/python/src/scheduler.rs, lib.rs) -/

/-- `PythonRuntimeType`: native-embed (PyO3), sandboxed (Wasm), or the
hybrid hint that requests intelligent selection. -/
inductive PythonRuntimeType where
  | PyO3
  | Wasm
  | Hybrid
deriving DecidableEq, Repr

/-- `WorkloadType` (scheduler.rs). -/
inductive WorkloadType where
  | MachineLearning
  | CpuIntensive
  | IoIntensive
  | Simple
  | Unknown
deriving DecidableEq, Repr

/-- `PythonExecutionRequest` (python/src/lib.rs); the uuid is a `Nat`,
the environment map a list of pairs. -/
structure PythonExecutionRequest where
  id : Nat
  code : String
  runtime_hint : Option PythonRuntimeType
  trust_level : TrustLevel
  timeout_ms : Nat
  memory_limit_mb : Nat
  environment : List (String × String)
  requirements : List String
deriving DecidableEq, Repr

/-- `PerformanceHistory`'s moving-average maps
(`HashMap<WorkloadType, f64>`), embedded as partial maps into `Rat`
(the floating-point averages carry exact halving arithmetic in this code
path's defaults). Success rates and the execution counter do not influence
runtime selection and are omitted from the selection model. -/
structure PerformanceHistory where
  pyo3_avg_time : WorkloadType → Option Rat
  wasm_avg_time : WorkloadType → Option Rat

/-- `PythonScheduler::select_runtime_by_workload`: the workload-class arm of
selection, consulting the moving averages for the ML-under-non-High case
(defaults 1000.0 / 2000.0; pick PyO3 only when `pyo3_avg * 3 < wasm_avg`). -/
def select_runtime_by_workload (history : PerformanceHistory)
    (workload_type : WorkloadType) (request : PythonExecutionRequest) :
    PythonRuntimeType :=
  match workload_type with
  | .MachineLearning =>
    if request.trust_level = .High then .PyO3
    else
      let pyo3_avg := (history.pyo3_avg_time workload_type).getD 1000
      let wasm_avg := (history.wasm_avg_time workload_type).getD 2000
      if pyo3_avg * 3 < wasm_avg then .PyO3 else .Wasm
  | .CpuIntensive => if request.trust_level ≠ .Low then .PyO3 else .Wasm
  | .IoIntensive => .Wasm
  | .Simple => .Wasm
  | .Unknown =>
    match request.trust_level with
    | .High => .PyO3
    | _ => .Wasm

/-- The fall-through of `select_runtime_internal` after the hint check:
security-based selection (Low always Wasm; Medium returns Wasm for
Simple/IoIntensive workloads) and then workload-based selection.
`analyze` stands for `WorkloadProfiler::analyze_workload`, the regex-based
classifier of the source text (kept as a parameter so statements quantify
over every classification, as the spec's dispatcher properties do). -/
def select_runtime_after_hint (analyze : String → WorkloadType)
    (history : PerformanceHistory) (request : PythonExecutionRequest) :
    PythonRuntimeType :=
  match request.trust_level with
  | .Low => .Wasm
  | .Medium =>
    let workload_type := analyze request.code
    if workload_type = .Simple ∨ workload_type = .IoIntensive then .Wasm
    else select_runtime_by_workload history (analyze request.code) request
  | .High => select_runtime_by_workload history (analyze request.code) request

/-- `PythonScheduler::select_runtime_internal`: a concrete PyO3/Wasm hint is
honored before anything else; a Hybrid hint or no hint continues with
security- and workload-based selection. -/
def select_runtime_internal (analyze : String → WorkloadType)
    (history : PerformanceHistory) (request : PythonExecutionRequest) :
    PythonRuntimeType :=
  match request.runtime_hint with
  | some .PyO3 => .PyO3
  | some .Wasm => .Wasm
  | some .Hybrid => select_runtime_after_hint analyze history request
  | none => select_runtime_after_hint analyze history request

/-- An empty performance history (`PerformanceHistory::new`). -/
def emptyHistory : PerformanceHistory :=
  { pyo3_avg_time := fun _ => none, wasm_avg_time := fun _ => none }

/-! ## Theorems -/

namespace MemoryPool

theorem inv_new (N S : Nat) : Inv (State.new N S) [] := by
  refine ⟨?_, ?_, ?_, ?_⟩
  · simp [State.new]
  · simp [State.new]
  · intro s _ i _
    simp [State.new]
  · show ((((List.range N).map fun i => ({ slot_id := i, size := S } : MemorySlot)) ++
      []).map MemorySlot.slot_id).Nodup
    rw [List.append_nil, List.map_map]
    have hcomp : (MemorySlot.slot_id ∘ fun i => ({ slot_id := i, size := S } : MemorySlot)) =
        fun i => i := rfl
    rw [hcomp]
    simpa using List.nodup_range N

theorem ids_disjoint {st : State} {out : List MemorySlot}
    (h4 : ((st.slots ++ out).map MemorySlot.slot_id).Nodup)
    {t s : MemorySlot} (ht : t ∈ st.slots) (hs : s ∈ out) :
    t.slot_id ≠ s.slot_id := by
  rw [List.map_append] at h4
  have hd := (List.nodup_append.mp h4).2.2
  intro he
  exact hd (List.mem_map_of_mem _ ht) (he ▸ List.mem_map_of_mem _ hs)

theorem step_total_slots (p : State × List MemorySlot) (op : Op) :
    (step p op).1.total_slots = p.1.total_slots := by
  obtain ⟨st, out⟩ := p
  cases op with
  | alloc =>
    cases hs : st.slots with
    | nil => simp [step, allocate, hs]
    | cons s rest => simp [step, allocate, hs]
  | free s =>
    by_cases hm : s ∈ out <;> simp [step, release, hm]
  | write s i v =>
    by_cases hm : s ∈ out ∧ i < s.size <;> simp [step, hm]

theorem inv_step (p : State × List MemorySlot) (op : Op) (h : Inv p.1 p.2) :
    Inv (step p op).1 (step p op).2 := by
  obtain ⟨st, out⟩ := p
  dsimp only at h
  obtain ⟨h1, h2, h3, h4⟩ := h
  cases op with
  | alloc =>
    cases hs : st.slots with
    | nil =>
      simp only [step, allocate, hs]
      exact ⟨h1, h2, h3, h4⟩
    | cons s rest =>
      rw [hs] at h1 h2 h3 h4
      simp only [step, allocate, hs]
      refine ⟨?_, ?_, ?_, ?_⟩
      · simp only [List.length_cons] at h1
        dsimp only
        omega
      · simp only [List.length_cons] at h2
        dsimp only
        simp only [List.length_cons]
        omega
      · intro t ht i hi
        exact h3 t (List.mem_cons_of_mem s ht) i hi
      · exact ((List.perm_middle).symm.map MemorySlot.slot_id).nodup h4
  | free s =>
    by_cases hm : s ∈ out
    · have hlen : 0 < out.length := List.length_pos.mpr (List.ne_nil_of_mem hm)
      simp only [step, hm, if_true]
      refine ⟨?_, ?_, ?_, ?_⟩
      · show st.available_count + 1 = (st.slots ++ [s]).length
        simp only [List.length_append, List.length_singleton]
        omega
      · show (st.slots ++ [s]).length + (out.erase s).length = st.total_slots
        simp only [List.length_append, List.length_singleton,
          List.length_erase_of_mem hm]
        omega
      · intro t ht i hi
        have ht2 : t ∈ st.slots ++ [s] := ht
        show (if t.slot_id = s.slot_id ∧ i < s.size then 0
          else st.mem t.slot_id i) = 0
        rcases List.mem_append.mp ht2 with ht' | ht'
        · have hne : t.slot_id ≠ s.slot_id := ids_disjoint h4 ht' hm
          rw [if_neg fun hc => hne hc.1]
          exact h3 t ht' i hi
        · have : t = s := by simpa using ht'
          subst this
          rw [if_pos ⟨rfl, hi⟩]
      · show (((st.slots ++ [s]) ++ out.erase s).map MemorySlot.slot_id).Nodup
        have hperm : ((st.slots ++ [s]) ++ out.erase s).Perm (st.slots ++ out) := by
          rw [List.append_assoc]
          exact List.Perm.append_left st.slots (List.perm_cons_erase hm).symm
        exact (hperm.symm.map MemorySlot.slot_id).nodup h4
    · have hstep : step (st, out) (Op.free s) = (st, out) := by
        simp [step, hm]
      rw [hstep]
      exact ⟨h1, h2, h3, h4⟩
  | write s i v =>
    by_cases hm : s ∈ out ∧ i < s.size
    · simp only [step, hm, if_true]
      refine ⟨h1, h2, ?_, h4⟩
      intro t ht j hj
      have hne : t.slot_id ≠ s.slot_id := ids_disjoint h4 ht hm.1
      show (if t.slot_id = s.slot_id ∧ j = i then v else st.mem t.slot_id j) = 0
      rw [if_neg fun hc => hne hc.1]
      exact h3 t ht j hj
    · have hstep : step (st, out) (Op.write s i v) = (st, out) := by
        simp [step, hm]
      rw [hstep]
      exact ⟨h1, h2, h3, h4⟩

theorem inv_run (p : State × List MemorySlot) (h : Inv p.1 p.2) (ops : List Op) :
    Inv (run p ops).1 (run p ops).2 ∧ (run p ops).1.total_slots = p.1.total_slots := by
  induction ops generalizing p with
  | nil => exact ⟨h, rfl⟩
  | cons op ops ih =>
    have hstep := ih (step p op) (inv_step p op h)
    rw [run]
    exact ⟨hstep.1, hstep.2.trans (step_total_slots p op)⟩

end MemoryPool

/-- C4: starting from a pool of `N` slots, after any finite well-formed
sequence of allocate/release (and in-slot write) operations,
`available_slots() + checked_out = N` and `available_slots() ∈ [0, N]`;
`allocate()` returns a slot exactly when `available_slots() ≠ 0` and the
error "No available memory slots" (without blocking) exactly when
`available_slots() = 0`; and `release` of any slot always succeeds,
increasing availability by one. -/
theorem C4_pool_accounting_invariant (N S : Nat) (ops : List MemoryPool.Op) :
    (MemoryPool.run (MemoryPool.State.new N S, []) ops).1.available_count +
      (MemoryPool.run (MemoryPool.State.new N S, []) ops).2.length = N ∧
    (MemoryPool.run (MemoryPool.State.new N S, []) ops).1.available_count ≤ N ∧
    ((∃ r, MemoryPool.allocate (MemoryPool.run (MemoryPool.State.new N S, []) ops).1 = .ok r) ↔
      (MemoryPool.run (MemoryPool.State.new N S, []) ops).1.available_count ≠ 0) ∧
    (MemoryPool.allocate (MemoryPool.run (MemoryPool.State.new N S, []) ops).1 =
        .error "No available memory slots" ↔
      (MemoryPool.run (MemoryPool.State.new N S, []) ops).1.available_count = 0) ∧
    ∀ s, (MemoryPool.release (MemoryPool.run (MemoryPool.State.new N S, []) ops).1 s).available_count =
      (MemoryPool.run (MemoryPool.State.new N S, []) ops).1.available_count + 1 := by
  obtain ⟨⟨h1, h2, h3, h4⟩, htot⟩ :=
    MemoryPool.inv_run (MemoryPool.State.new N S, []) (MemoryPool.inv_new N S) ops
  set st := (MemoryPool.run (MemoryPool.State.new N S, []) ops).1 with hst
  have htotN : st.total_slots = N := htot
  refine ⟨by omega, by omega, ?_, ?_, fun s => rfl⟩
  · cases hs : st.slots with
    | nil =>
      rw [hs] at h1
      simp [MemoryPool.allocate, hs, h1]
    | cons a rest =>
      rw [hs] at h1
      simp [MemoryPool.allocate, hs, h1]
  · cases hs : st.slots with
    | nil =>
      rw [hs] at h1
      simp [MemoryPool.allocate, hs, h1]
    | cons a rest =>
      rw [hs] at h1
      simp [MemoryPool.allocate, hs, h1]

/-- Witness for C4: the invariant conjunction evaluated on a 2-slot pool
after a single allocate. -/
theorem C4_witness :
    (MemoryPool.run (MemoryPool.State.new 2 8, []) [MemoryPool.Op.alloc]).1.available_count +
      (MemoryPool.run (MemoryPool.State.new 2 8, []) [MemoryPool.Op.alloc]).2.length = 2 ∧
    (MemoryPool.run (MemoryPool.State.new 2 8, []) [MemoryPool.Op.alloc]).1.available_count ≤ 2 ∧
    ((∃ r, MemoryPool.allocate (MemoryPool.run (MemoryPool.State.new 2 8, []) [MemoryPool.Op.alloc]).1 = .ok r) ↔
      (MemoryPool.run (MemoryPool.State.new 2 8, []) [MemoryPool.Op.alloc]).1.available_count ≠ 0) ∧
    (MemoryPool.allocate (MemoryPool.run (MemoryPool.State.new 2 8, []) [MemoryPool.Op.alloc]).1 =
        .error "No available memory slots" ↔
      (MemoryPool.run (MemoryPool.State.new 2 8, []) [MemoryPool.Op.alloc]).1.available_count = 0) ∧
    ∀ s, (MemoryPool.release (MemoryPool.run (MemoryPool.State.new 2 8, []) [MemoryPool.Op.alloc]).1 s).available_count =
      (MemoryPool.run (MemoryPool.State.new 2 8, []) [MemoryPool.Op.alloc]).1.available_count + 1 :=
  C4_pool_accounting_invariant 2 8 [MemoryPool.Op.alloc]

/-- C5: any slot handed out by `allocate` — in particular any slot that was
released and is being reacquired — has all of its `size` bytes reading zero
at the moment of reacquisition (the eBPF pool zeroes with `memset` on
release, the Wasm pool with `madvise(MADV_DONTNEED)` on its pre-faulted
anonymous private mapping; both leave every queued slot all-zero). -/
theorem C5_reacquired_slot_is_zeroed (N S : Nat) (ops : List MemoryPool.Op)
    (s : MemorySlot)
    (h : ∃ r, MemoryPool.allocate
      (MemoryPool.run (MemoryPool.State.new N S, []) ops).1 = .ok (s, r)) :
    ∀ i, i < s.size →
      (MemoryPool.run (MemoryPool.State.new N S, []) ops).1.mem s.slot_id i = 0 := by
  obtain ⟨⟨h1, h2, h3, h4⟩, -⟩ :=
    MemoryPool.inv_run (MemoryPool.State.new N S, []) (MemoryPool.inv_new N S) ops
  set st := (MemoryPool.run (MemoryPool.State.new N S, []) ops).1 with hst
  obtain ⟨r, hr⟩ := h
  cases hs : st.slots with
  | nil => simp [MemoryPool.allocate, hs] at hr
  | cons a rest =>
    simp [MemoryPool.allocate, hs] at hr
    have hmem : s ∈ st.slots := by
      rw [hs, ← hr.1]
      exact List.mem_cons_self a rest
    exact h3 s hmem

/-- Witness for C5: on a 1-slot pool of 4-byte slots, after allocating the
slot, writing byte 1 through it, and releasing it, reacquisition sees byte 1
as zero. -/
theorem C5_witness :
    (MemoryPool.run (MemoryPool.State.new 1 4, [])
      [MemoryPool.Op.alloc,
       MemoryPool.Op.write { slot_id := 0, size := 4 } 1 7,
       MemoryPool.Op.free { slot_id := 0, size := 4 }]).1.mem 0 1 = 0 :=
  C5_reacquired_slot_is_zeroed 1 4
    [MemoryPool.Op.alloc,
     MemoryPool.Op.write { slot_id := 0, size := 4 } 1 7,
     MemoryPool.Op.free { slot_id := 0, size := 4 }]
    { slot_id := 0, size := 4 } ⟨_, rfl⟩ 1 (by decide)

theorem toSigned16_bounds (x : Nat) : -32768 ≤ toSigned16 x ∧ toSigned16 x < 32768 := by
  simp only [toSigned16]
  split <;> omega

theorem wrap32_eq_self {x : Int} (h1 : -2147483648 ≤ x) (h2 : x < 2147483648) :
    wrap32 x = x := by
  unfold wrap32
  omega

theorem parse_ok_fields {code : List Nat} {pc : Nat} {insn : Instruction}
    (h : parse_instruction code pc = .ok insn) :
    insn.opcode = byte code pc ∧ -32768 ≤ insn.offset ∧ insn.offset < 32768 := by
  unfold parse_instruction at h
  split at h
  · cases h
  · cases h
    exact ⟨rfl, toSigned16_bounds _⟩

theorem parse_error_insufficient {code : List Nat} {pc : Nat} {e : VerifyError}
    (h : parse_instruction code pc = .error e) : e = .insufficientBytes := by
  unfold parse_instruction at h
  split at h
  · cases h
    rfl
  · cases h

theorem parse_ok_of_in_bounds (code : List Nat) (pc : Nat) (h : pc + 8 ≤ code.length) :
    ∃ insn, parse_instruction code pc = .ok insn := by
  unfold parse_instruction
  rw [if_neg (by omega)]
  exact ⟨_, rfl⟩

theorem calculate_ok_value {pc : Nat} {insn : Instruction} {t : Int}
    (h : Verifier.calculate_branch_target pc insn = .ok t) :
    0 ≤ t ∧ t = wrap32 (wrap32 (pc : Int) + 8 + insn.offset * 8) := by
  change (if wrap32 (wrap32 (pc : Int) + 8 + insn.offset * 8) < 0 then
      (Except.error (VerifyError.negativeBranchTarget pc) : Except VerifyError Int)
    else .ok (wrap32 (wrap32 (pc : Int) + 8 + insn.offset * 8))) = .ok t at h
  by_cases hneg : wrap32 (wrap32 (pc : Int) + 8 + insn.offset * 8) < 0
  · rw [if_pos hneg] at h
    exact Except.noConfusion h
  · rw [if_neg hneg] at h
    have hv := Except.ok.inj h
    exact ⟨hv ▸ (by omega), hv.symm⟩

theorem calculate_error_negative {pc : Nat} {insn : Instruction} {e : VerifyError}
    (h : Verifier.calculate_branch_target pc insn = .error e) :
    e = .negativeBranchTarget pc := by
  change (if wrap32 (wrap32 (pc : Int) + 8 + insn.offset * 8) < 0 then
      (Except.error (VerifyError.negativeBranchTarget pc) : Except VerifyError Int)
    else .ok (wrap32 (wrap32 (pc : Int) + 8 + insn.offset * 8))) = .error e at h
  by_cases hneg : wrap32 (wrap32 (pc : Int) + 8 + insn.offset * 8) < 0
  · rw [if_pos hneg] at h
    exact (Except.error.inj h).symm
  · rw [if_neg hneg] at h
    exact Except.noConfusion h

theorem verifyInsns_zero (v : Verifier) (code : List Nat) (pc : Nat) :
    v.verifyInsns code 0 pc = .ok [] := rfl

theorem verifyInsns_succ (v : Verifier) (code : List Nat) (n pc : Nat) :
    v.verifyInsns code (n + 1) pc =
      (match parse_instruction code pc with
       | .error e => .error e
       | .ok insn =>
         match v.verify_instruction insn pc with
         | .error e => .error e
         | .ok () =>
           if v.is_branch_instruction insn then
             match Verifier.calculate_branch_target pc insn with
             | .error e => .error e
             | .ok t =>
               match v.verifyInsns code n (pc + 8) with
               | .error e => .error e
               | .ok ts => .ok (t :: ts)
           else
             v.verifyInsns code n (pc + 8)) := rfl

/-- Success of the per-instruction loop implies, for every instruction index
below the iteration count: the instruction parses, `verify_instruction`
accepted it, and (when it is branch-class) its computed branch target was
produced and collected. -/
theorem verifyInsns_ok_spec (v : Verifier) (code : List Nat) :
    ∀ (n pc : Nat) (ts : List Int), v.verifyInsns code n pc = .ok ts →
    ∀ k, k < n →
    ∃ insn, parse_instruction code (pc + 8 * k) = .ok insn ∧
      v.verify_instruction insn (pc + 8 * k) = .ok () ∧
      (v.is_branch_instruction insn = true →
        ∃ t, Verifier.calculate_branch_target (pc + 8 * k) insn = .ok t ∧ t ∈ ts) := by
  intro n
  induction n with
  | zero =>
    intro pc ts h k hk
    exact absurd hk (Nat.not_lt_zero k)
  | succ n ih =>
    intro pc ts h k hk
    rw [verifyInsns_succ] at h
    cases hp : parse_instruction code pc with
    | error e =>
      rw [hp] at h
      dsimp only at h
      exact Except.noConfusion h
    | ok insn =>
      rw [hp] at h
      dsimp only at h
      cases hv : v.verify_instruction insn pc with
      | error e =>
        rw [hv] at h
        dsimp only at h
        exact Except.noConfusion h
      | ok u =>
        cases u
        rw [hv] at h
        dsimp only at h
        by_cases hb : v.is_branch_instruction insn = true
        · rw [if_pos hb] at h
          cases hc : Verifier.calculate_branch_target pc insn with
          | error e =>
            rw [hc] at h
            dsimp only at h
            exact Except.noConfusion h
          | ok t =>
            rw [hc] at h
            dsimp only at h
            cases hr : v.verifyInsns code n (pc + 8) with
            | error e =>
              rw [hr] at h
              dsimp only at h
              exact Except.noConfusion h
            | ok ts' =>
              rw [hr] at h
              dsimp only at h
              obtain rfl : ts = t :: ts' := (Except.ok.inj h).symm
              cases k with
              | zero =>
                refine ⟨insn, by simpa using hp, by simpa using hv,
                  fun _ => ⟨t, by simpa using hc, ?_⟩⟩
                exact List.mem_cons_self t ts'
              | succ k =>
                have harith : pc + 8 * (k + 1) = (pc + 8) + 8 * k := by omega
                obtain ⟨insn', hp', hv', hb'⟩ :=
                  ih (pc + 8) ts' hr k (Nat.lt_of_succ_lt_succ hk)
                rw [harith]
                refine ⟨insn', hp', hv', fun hbr => ?_⟩
                obtain ⟨t', hc', hm'⟩ := hb' hbr
                exact ⟨t', hc', List.mem_cons_of_mem t hm'⟩
        · rw [if_neg hb] at h
          cases k with
          | zero =>
            exact ⟨insn, by simpa using hp, by simpa using hv, fun hbr => absurd hbr hb⟩
          | succ k =>
            have harith : pc + 8 * (k + 1) = (pc + 8) + 8 * k := by omega
            rw [harith]
            exact ih (pc + 8) ts h k (Nat.lt_of_succ_lt_succ hk)

theorem checkBranchTargets_ok_spec {ts : List Int} {len : Nat}
    (h : checkBranchTargets ts len = .ok ()) :
    ∀ t ∈ ts, t < (len : Int) ∧ t % 8 = 0 := by
  induction ts with
  | nil =>
    intro t ht
    cases ht
  | cons a ts ih =>
    by_cases hc : a ≥ (len : Int) ∨ a % 8 ≠ 0
    · rw [checkBranchTargets, if_pos hc] at h
      cases h
    · rw [checkBranchTargets, if_neg hc] at h
      push_neg at hc
      intro t ht
      rcases List.mem_cons.mp ht with rfl | ht'
      · exact hc
      · exact ih h t ht'

/-- Decomposition of a successful `verify`: the length and count checks
passed, the instruction loop produced a target list, and that list passed
the branch-target validation. -/
theorem verify_ok_parts {v : Verifier} {code : List Nat}
    (h : v.verify code = .ok ()) :
    code.length % 8 = 0 ∧ code.length / 8 ≤ v.max_instructions ∧
    ∃ ts, v.verifyInsns code (code.length / 8) 0 = .ok ts ∧
      checkBranchTargets ts code.length = .ok () := by
  by_cases h1 : code.length % 8 ≠ 0
  · simp [Verifier.verify, h1] at h
  · push_neg at h1
    by_cases h2 : code.length / 8 > v.max_instructions
    · simp [Verifier.verify, h1, h2] at h
    · cases hr : v.verifyInsns code (code.length / 8) 0 with
      | error e => simp [Verifier.verify, h1, h2, hr] at h
      | ok ts =>
        cases hch : checkBranchTargets ts code.length with
        | error e => simp [Verifier.verify, h1, h2, hr, hch] at h
        | ok u =>
          cases u
          exact ⟨h1, by omega, ts, rfl, hch⟩

theorem ls_not_alu : ∀ x ∈ loadStoreOpcodes, x ∉ aluOpcodes := by decide

theorem ls_not_jump : ∀ x ∈ loadStoreOpcodes, x ∉ jumpOpcodes := by decide

/-- In safe mode, `verify_instruction` never accepts a load/store-class
instruction: either the register check or the memory-access check rejects. -/
theorem verify_instruction_loadstore_safe (v : Verifier) (insn : Instruction)
    (pc : Nat) (hu : v.unsafe_allowed = false)
    (hop : insn.opcode ∈ loadStoreOpcodes) :
    v.verify_instruction insn pc ≠ .ok () := by
  intro h
  have halu : insn.opcode ∉ aluOpcodes := ls_not_alu insn.opcode hop
  have hjump : insn.opcode ∉ jumpOpcodes := ls_not_jump insn.opcode hop
  simp only [Verifier.verify_instruction, hu] at h
  split_ifs at h <;> simp_all

/-- In unsafe-allowed mode, `verify_instruction` never produces the
memory-access-denied rejection. -/
theorem verify_instruction_unsafe_no_memdenied (v : Verifier) (insn : Instruction)
    (pc : Nat) (hu : v.unsafe_allowed = true) (e : VerifyError)
    (h : v.verify_instruction insn pc = .error e) :
    e.isMemoryAccessDenied = false := by
  simp only [Verifier.verify_instruction] at h
  split_ifs at h <;>
    first
      | exact Except.noConfusion h
      | (obtain rfl := (Except.error.inj h).symm; rfl)

/-- The whole safe-mode rejection of load/store programs: a verifier in safe
mode accepts no program containing a load/store-class instruction. -/
theorem verify_safe_rejects_loadstore (v : Verifier) (hu : v.unsafe_allowed = false)
    (code : List Nat) (hls : containsLoadStore code = true) :
    v.verify code ≠ .ok () := by
  intro hok
  obtain ⟨hlen, hcount, ts, hts, hcheck⟩ := verify_ok_parts hok
  simp only [containsLoadStore, List.any_eq_true, List.mem_range,
    decide_eq_true_eq] at hls
  obtain ⟨k, hk, hop⟩ := hls
  obtain ⟨insn, hp, hv, -⟩ :=
    verifyInsns_ok_spec v code (code.length / 8) 0 ts hts k hk
  have h0 : (0 : Nat) + 8 * k = 8 * k := by omega
  rw [h0] at hp hv
  obtain ⟨hopeq, -, -⟩ := parse_ok_fields hp
  exact verify_instruction_loadstore_safe v insn (8 * k) hu (hopeq ▸ hop) hv

theorem verifyInsns_unsafe_errors (v : Verifier) (hu : v.unsafe_allowed = true)
    (code : List Nat) :
    ∀ n pc e, v.verifyInsns code n pc = .error e →
      e.isMemoryAccessDenied = false := by
  intro n
  induction n with
  | zero =>
    intro pc e h
    rw [verifyInsns_zero] at h
    exact Except.noConfusion h
  | succ n ih =>
    intro pc e h
    rw [verifyInsns_succ] at h
    cases hp : parse_instruction code pc with
    | error e2 =>
      rw [hp] at h
      dsimp only at h
      obtain rfl := (Except.error.inj h).symm
      rw [parse_error_insufficient hp]
      rfl
    | ok insn =>
      rw [hp] at h
      dsimp only at h
      cases hv : v.verify_instruction insn pc with
      | error e2 =>
        rw [hv] at h
        dsimp only at h
        obtain rfl := (Except.error.inj h).symm
        exact verify_instruction_unsafe_no_memdenied v insn pc hu e hv
      | ok u =>
        cases u
        rw [hv] at h
        dsimp only at h
        by_cases hb : v.is_branch_instruction insn = true
        · rw [if_pos hb] at h
          cases hc : Verifier.calculate_branch_target pc insn with
          | error e2 =>
            rw [hc] at h
            dsimp only at h
            obtain rfl := (Except.error.inj h).symm
            rw [calculate_error_negative hc]
            rfl
          | ok t =>
            rw [hc] at h
            dsimp only at h
            cases hr : v.verifyInsns code n (pc + 8) with
            | error e2 =>
              rw [hr] at h
              dsimp only at h
              obtain rfl := (Except.error.inj h).symm
              exact ih (pc + 8) e hr
            | ok ts =>
              rw [hr] at h
              dsimp only at h
              exact Except.noConfusion h
        · rw [if_neg hb] at h
          exact ih (pc + 8) e h

theorem checkBranchTargets_error_shape (len : Nat) (e : VerifyError) :
    ∀ ts : List Int, checkBranchTargets ts len = .error e →
      ∃ t, e = .invalidBranchTarget t := by
  intro ts
  induction ts with
  | nil =>
    intro h
    exact Except.noConfusion h
  | cons a ts ih =>
    intro h
    by_cases hc : a ≥ (len : Int) ∨ a % 8 ≠ 0
    · rw [checkBranchTargets, if_pos hc] at h
      exact ⟨a, (Except.error.inj h).symm⟩
    · rw [checkBranchTargets, if_neg hc] at h
      exact ih h

theorem verify_memory_access_zero (v : Verifier) (code : List Nat) (pc : Nat) :
    v.verify_memory_access code 0 pc = .ok () := rfl

theorem verify_memory_access_succ (v : Verifier) (code : List Nat) (n pc : Nat) :
    v.verify_memory_access code (n + 1) pc =
      (match parse_instruction code pc with
       | .error e => .error e
       | .ok _ => v.verify_memory_access code n (pc + 8)) := rfl

theorem verify_memory_access_error_shape (v : Verifier) (code : List Nat) :
    ∀ n pc e, v.verify_memory_access code n pc = .error e →
      e = .insufficientBytes := by
  intro n
  induction n with
  | zero =>
    intro pc e h
    rw [verify_memory_access_zero] at h
    exact Except.noConfusion h
  | succ n ih =>
    intro pc e h
    rw [verify_memory_access_succ] at h
    cases hp : parse_instruction code pc with
    | error e2 =>
      rw [hp] at h
      dsimp only at h
      obtain rfl := (Except.error.inj h).symm
      exact parse_error_insufficient hp
    | ok insn =>
      rw [hp] at h
      dsimp only at h
      exact ih (pc + 8) e h

theorem verify_function_calls_zero (v : Verifier) (code : List Nat) (pc : Nat) :
    v.verify_function_calls code 0 pc = .ok () := rfl

theorem verify_function_calls_succ (v : Verifier) (code : List Nat) (n pc : Nat) :
    v.verify_function_calls code (n + 1) pc =
      (match parse_instruction code pc with
       | .error e => .error e
       | .ok insn =>
         if insn.opcode = 0x85 then
           if is_valid_helper insn.immediate then
             v.verify_function_calls code n (pc + 8)
           else .error (.invalidHelper insn.immediate pc)
         else v.verify_function_calls code n (pc + 8)) := rfl

theorem verify_function_calls_error_shape (v : Verifier) (code : List Nat) :
    ∀ n pc e, v.verify_function_calls code n pc = .error e →
      e.isMemoryAccessDenied = false := by
  intro n
  induction n with
  | zero =>
    intro pc e h
    rw [verify_function_calls_zero] at h
    exact Except.noConfusion h
  | succ n ih =>
    intro pc e h
    rw [verify_function_calls_succ] at h
    cases hp : parse_instruction code pc with
    | error e2 =>
      rw [hp] at h
      dsimp only at h
      obtain rfl := (Except.error.inj h).symm
      rw [parse_error_insufficient hp]
      rfl
    | ok insn =>
      rw [hp] at h
      dsimp only at h
      by_cases h85 : insn.opcode = 0x85
      · rw [if_pos h85] at h
        by_cases hh : is_valid_helper insn.immediate = true
        · rw [if_pos hh] at h
          exact ih (pc + 8) e h
        · rw [if_neg hh] at h
          obtain rfl := (Except.error.inj h).symm
          rfl
      · rw [if_neg h85] at h
        exact ih (pc + 8) e h

/-- An unsafe-allowed verifier never rejects with memory-access-denied:
every rejection it can produce is of another kind. -/
theorem verify_unsafe_no_memdenied (v : Verifier) (hu : v.unsafe_allowed = true)
    (code : List Nat) (e : VerifyError) (h : v.verify code = .error e) :
    e.isMemoryAccessDenied = false := by
  by_cases h1 : code.length % 8 ≠ 0
  · simp only [Verifier.verify, if_pos h1] at h
    obtain rfl := (Except.error.inj h).symm
    rfl
  · push_neg at h1
    by_cases h2 : code.length / 8 > v.max_instructions
    · simp only [Verifier.verify] at h
      rw [if_neg (by omega), if_pos h2] at h
      obtain rfl := (Except.error.inj h).symm
      rfl
    · simp only [Verifier.verify] at h
      rw [if_neg (by omega), if_neg (by omega)] at h
      cases hr : v.verifyInsns code (code.length / 8) 0 with
      | error e2 =>
        rw [hr] at h
        dsimp only at h
        obtain rfl := (Except.error.inj h).symm
        exact verifyInsns_unsafe_errors v hu code _ _ e hr
      | ok ts =>
        rw [hr] at h
        dsimp only at h
        cases hch : checkBranchTargets ts code.length with
        | error e2 =>
          rw [hch] at h
          dsimp only at h
          obtain rfl := (Except.error.inj h).symm
          obtain ⟨t, rfl⟩ := checkBranchTargets_error_shape code.length e ts hch
          rfl
        | ok u =>
          cases u
          rw [hch] at h
          dsimp only at h
          cases hm : v.verify_memory_access code (code.length / 8) 0 with
          | error e2 =>
            rw [hm] at h
            dsimp only at h
            obtain rfl := (Except.error.inj h).symm
            rw [verify_memory_access_error_shape v code _ _ e hm]
            rfl
          | ok u2 =>
            cases u2
            rw [hm] at h
            dsimp only at h
            exact verify_function_calls_error_shape v code _ _ e h

/-- C2 counterexample: the 8-byte program whose single instruction is the
load opcode 0x61 with destination register 11 contains a load/store-class
instruction, yet the safe-mode verifier rejects it with the invalid-register
rejection, not the memory-access-denied rejection the claim requires. -/
theorem C2_counterexample :
    containsLoadStore [0x61, 0x0B, 0, 0, 0, 0, 0, 0] = true ∧
    Verifier.new.verify [0x61, 0x0B, 0, 0, 0, 0, 0, 0] =
      .error (.invalidRegister 0) ∧
    (VerifyError.invalidRegister 0).isMemoryAccessDenied = false :=
  ⟨by decide, by decide, rfl⟩

/-- C2 (amended): a safe-mode verifier rejects every bytecode containing a
load/store-class instruction (with memory-access-denied whenever the checks
preceding the load/store opcode check all pass, e.g. on the spec's
two-instruction program); an unsafe-allowed verifier never rejects with
memory-access-denied; and the spec's program `61 10 ... 95 ...` is rejected
with memory-access-denied in safe mode and accepted in unsafe mode. -/
theorem C2_loadstore_rejection (m : Nat) :
    (∀ code : List Nat, containsLoadStore code = true →
      (Verifier.with_config m false).verify code ≠ .ok ()) ∧
    (∀ (code : List Nat) (e : VerifyError),
      (Verifier.with_config m true).verify code = .error e →
        e.isMemoryAccessDenied = false) ∧
    Verifier.new.verify unsafeLoadProgram = .error (.memoryAccessDenied 0) ∧
    (Verifier.with_config 4096 true).verify unsafeLoadProgram = .ok () :=
  ⟨fun code h => verify_safe_rejects_loadstore (Verifier.with_config m false) rfl code h,
   fun code e h => verify_unsafe_no_memdenied (Verifier.with_config m true) rfl code e h,
   by decide, by decide⟩

/-- Witness for C2: the safe default verifier rejects the spec's load
program, and the unsafe verifier's rejection of an invalid-opcode program is
not memory-access-denied. -/
theorem C2_witness :
    Verifier.new.verify unsafeLoadProgram ≠ .ok () ∧
    (VerifyError.invalidOpcode 255 0).isMemoryAccessDenied = false :=
  ⟨(C2_loadstore_rejection 4096).1 unsafeLoadProgram (by decide),
   (C2_loadstore_rejection 4096).2.1 [0xFF, 0, 0, 0, 0, 0, 0, 0]
     (.invalidOpcode 255 0) (by decide)⟩

theorem length_flatten_replicate (n : Nat) (bs : List Nat) :
    ((List.replicate n bs).flatten).length = n * bs.length := by
  induction n with
  | zero => simp
  | succ n ih =>
    simp [List.replicate_succ, ih]
    ring

theorem getD_flatten_replicate {bs : List Nat} (h8 : bs.length = 8) :
    ∀ n q r, q < n → r < 8 →
      ((List.replicate n bs).flatten).getD (8 * q + r) 0 = bs.getD r 0 := by
  intro n
  induction n with
  | zero =>
    intro q r hq _
    exact absurd hq (Nat.not_lt_zero q)
  | succ n ih =>
    intro q r hq hr
    rw [List.replicate_succ, List.flatten_cons]
    cases q with
    | zero =>
      rw [show 8 * 0 + r = r by omega]
      rw [List.getD_append _ _ _ _ (by omega)]
    | succ q =>
      rw [List.getD_append_right _ _ _ _ (by omega)]
      rw [show 8 * (q + 1) + r - bs.length = 8 * q + r by omega]
      exact ih q r (by omega) hr

theorem hugeProgram_length : hugeProgram.length = 4294967296 := by
  rw [hugeProgram, List.length_append, length_flatten_replicate,
    show exitBytes.length = 8 from rfl, show jaBytes.length = 8 from rfl]

theorem byte_huge_exit (k r : Nat) (hk : k < 536870911) (hr : r < 8) :
    byte hugeProgram (8 * k + r) = exitBytes.getD r 0 := by
  have hlen8 : exitBytes.length = 8 := rfl
  have hlt : 8 * k + r < ((List.replicate 536870911 exitBytes).flatten).length := by
    rw [length_flatten_replicate, hlen8]
    omega
  show hugeProgram.getD (8 * k + r) 0 % 256 = exitBytes.getD r 0
  rw [hugeProgram, List.getD_append _ _ _ _ hlt,
    getD_flatten_replicate hlen8 536870911 k r hk hr]
  interval_cases r <;> rfl

theorem byte_huge_ja (r : Nat) (hr : r < 8) :
    byte hugeProgram (4294967288 + r) = jaBytes.getD r 0 := by
  have hlen : ((List.replicate 536870911 exitBytes).flatten).length = 4294967288 := by
    rw [length_flatten_replicate, show exitBytes.length = 8 from rfl]
  show hugeProgram.getD (4294967288 + r) 0 % 256 = jaBytes.getD r 0
  rw [hugeProgram, List.getD_append_right _ _ _ _ (by rw [hlen]; omega), hlen]
  rw [show 4294967288 + r - 4294967288 = r by omega]
  interval_cases r <;> rfl

theorem parse_huge_exit (k : Nat) (hk : k < 536870911) :
    parse_instruction hugeProgram (8 * k) = .ok exitInsn := by
  have h0 : byte hugeProgram (8 * k) = 149 := by
    have h := byte_huge_exit k 0 hk (by omega)
    rw [show 8 * k + 0 = 8 * k by omega] at h
    exact h
  have h1 : byte hugeProgram (8 * k + 1) = 0 := byte_huge_exit k 1 hk (by omega)
  have h2 : byte hugeProgram (8 * k + 2) = 0 := byte_huge_exit k 2 hk (by omega)
  have h3 : byte hugeProgram (8 * k + 3) = 0 := byte_huge_exit k 3 hk (by omega)
  have h4 : byte hugeProgram (8 * k + 4) = 0 := byte_huge_exit k 4 hk (by omega)
  have h5 : byte hugeProgram (8 * k + 5) = 0 := byte_huge_exit k 5 hk (by omega)
  have h6 : byte hugeProgram (8 * k + 6) = 0 := byte_huge_exit k 6 hk (by omega)
  have h7 : byte hugeProgram (8 * k + 7) = 0 := byte_huge_exit k 7 hk (by omega)
  simp only [parse_instruction]
  rw [if_neg (by rw [hugeProgram_length]; omega), h0, h1, h2, h3, h4, h5, h6, h7]
  decide

theorem parse_huge_ja : parse_instruction hugeProgram 4294967288 = .ok jaInsn := by
  have h0 : byte hugeProgram 4294967288 = 5 := by
    have h := byte_huge_ja 0 (by omega)
    rw [Nat.add_zero] at h
    exact h
  have h1 : byte hugeProgram (4294967288 + 1) = 0 := byte_huge_ja 1 (by omega)
  have h2 : byte hugeProgram (4294967288 + 2) = 0 := byte_huge_ja 2 (by omega)
  have h3 : byte hugeProgram (4294967288 + 3) = 0 := byte_huge_ja 3 (by omega)
  have h4 : byte hugeProgram (4294967288 + 4) = 0 := byte_huge_ja 4 (by omega)
  have h5 : byte hugeProgram (4294967288 + 5) = 0 := byte_huge_ja 5 (by omega)
  have h6 : byte hugeProgram (4294967288 + 6) = 0 := byte_huge_ja 6 (by omega)
  have h7 : byte hugeProgram (4294967288 + 7) = 0 := byte_huge_ja 7 (by omega)
  simp only [parse_instruction]
  rw [if_neg (by rw [hugeProgram_length]; omega), h0, h1, h2, h3, h4, h5, h6, h7]
  decide

theorem exit_insn_checks (v : Verifier) (pc : Nat) :
    v.verify_instruction exitInsn pc = .ok () := rfl

theorem ja_insn_checks (v : Verifier) (pc : Nat) :
    v.verify_instruction jaInsn pc = .ok () := rfl

theorem exit_not_branch (v : Verifier) : v.is_branch_instruction exitInsn = false := rfl

theorem ja_is_branch (v : Verifier) : v.is_branch_instruction jaInsn = true := rfl

theorem huge_target_wraps :
    Verifier.calculate_branch_target 4294967288 jaInsn = .ok 0 := by decide

/-- A run of instructions that all parse as `EXIT` is skipped by the
per-instruction loop without errors or collected targets. -/
theorem verifyInsns_skip_exits (v : Verifier) (code : List Nat) :
    ∀ m pc j, (∀ k, k < m → parse_instruction code (pc + 8 * k) = .ok exitInsn) →
      v.verifyInsns code (m + j) pc = v.verifyInsns code j (pc + 8 * m) := by
  intro m
  induction m with
  | zero =>
    intro pc j _
    rw [Nat.zero_add, Nat.mul_zero, Nat.add_zero]
  | succ m ih =>
    intro pc j hpar
    have h0 : parse_instruction code pc = .ok exitInsn := by
      have h := hpar 0 (by omega)
      rwa [Nat.mul_zero, Nat.add_zero] at h
    rw [show m + 1 + j = (m + j) + 1 by omega, verifyInsns_succ, h0]
    dsimp only
    rw [exit_insn_checks]
    dsimp only
    rw [if_neg (by simp [exit_not_branch])]
    rw [ih (pc + 8) j (fun k hk => by
      have h := hpar (k + 1) (by omega)
      rwa [show pc + 8 * (k + 1) = pc + 8 + 8 * k by omega] at h)]
    rw [show pc + 8 + 8 * m = pc + 8 * (m + 1) by omega]

theorem vma_all_ok (v : Verifier) (code : List Nat) :
    ∀ n pc, (∀ k, k < n → ∃ i, parse_instruction code (pc + 8 * k) = .ok i) →
      v.verify_memory_access code n pc = .ok () := by
  intro n
  induction n with
  | zero =>
    intro pc _
    rw [verify_memory_access_zero]
  | succ n ih =>
    intro pc hpar
    obtain ⟨i0, h0⟩ := hpar 0 (by omega)
    rw [Nat.mul_zero, Nat.add_zero] at h0
    rw [verify_memory_access_succ, h0]
    dsimp only
    exact ih (pc + 8) (fun k hk => by
      obtain ⟨i, hi⟩ := hpar (k + 1) (by omega)
      exact ⟨i, by rwa [show pc + 8 * (k + 1) = pc + 8 + 8 * k by omega] at hi⟩)

theorem vfc_all_ok (v : Verifier) (code : List Nat) :
    ∀ n pc, (∀ k, k < n →
        ∃ i, parse_instruction code (pc + 8 * k) = .ok i ∧ i.opcode ≠ 0x85) →
      v.verify_function_calls code n pc = .ok () := by
  intro n
  induction n with
  | zero =>
    intro pc _
    rw [verify_function_calls_zero]
  | succ n ih =>
    intro pc hpar
    obtain ⟨i0, h0, hop⟩ := hpar 0 (by omega)
    rw [Nat.mul_zero, Nat.add_zero] at h0
    rw [verify_function_calls_succ, h0]
    dsimp only
    rw [if_neg hop]
    exact ih (pc + 8) (fun k hk => by
      obtain ⟨i, hi, hio⟩ := hpar (k + 1) (by omega)
      exact ⟨i, by rwa [show pc + 8 * (k + 1) = pc + 8 + 8 * k by omega] at hi, hio⟩)

theorem parse_huge (k : Nat) (hk : k < 536870912) :
    ∃ i, parse_instruction hugeProgram (8 * k) = .ok i ∧ i.opcode ≠ 0x85 := by
  by_cases hk1 : k < 536870911
  · exact ⟨exitInsn, parse_huge_exit k hk1, by decide⟩
  · have hke : k = 536870911 := by omega
    subst hke
    refine ⟨jaInsn, ?_, by decide⟩
    rw [show 8 * 536870911 = 4294967288 by norm_num]
    exact parse_huge_ja

theorem verify_unfold (v : Verifier) (code : List Nat) :
    v.verify code =
      (if code.length % 8 ≠ 0 then .error .invalidLength
       else if code.length / 8 > v.max_instructions then
         .error (.programTooLarge (code.length / 8) v.max_instructions)
       else
         match v.verifyInsns code (code.length / 8) 0 with
         | .error e => .error e
         | .ok branch_targets =>
           match checkBranchTargets branch_targets code.length with
           | .error e => .error e
           | .ok () =>
             match v.verify_memory_access code (code.length / 8) 0 with
             | .error e => .error e
             | .ok () => v.verify_function_calls code (code.length / 8) 0) := rfl

/-- The verifier configured for 2^29 instructions accepts `hugeProgram`:
the i32 wrap makes the final jump's computed target 0, which passes all
branch-target checks. -/
theorem hugeProgram_accepted :
    (Verifier.with_config 536870912 false).verify hugeProgram = .ok () := by
  have hloop : (Verifier.with_config 536870912 false).verifyInsns hugeProgram
      536870912 0 = .ok [0] := by
    rw [show (536870912 : Nat) = 536870911 + 1 by norm_num]
    rw [verifyInsns_skip_exits _ hugeProgram 536870911 0 1 (fun k hk => by
      rw [Nat.zero_add]
      exact parse_huge_exit k hk)]
    rw [show (0 + 8 * 536870911 : Nat) = 4294967288 by norm_num]
    rw [verifyInsns_succ, parse_huge_ja]
    dsimp only
    rw [ja_insn_checks]
    dsimp only
    rw [if_pos (ja_is_branch _), huge_target_wraps]
    dsimp only
    rw [verifyInsns_zero]
  rw [verify_unfold, hugeProgram_length]
  rw [if_neg (by decide)]
  rw [if_neg (by decide)]
  rw [show (4294967296 / 8 : Nat) = 536870912 by norm_num]
  rw [vma_all_ok _ hugeProgram 536870912 0 (fun k hk => by
    rw [Nat.zero_add]
    exact (parse_huge k hk).imp fun i hi => hi.1)]
  rw [vfc_all_ok _ hugeProgram 536870912 0 (fun k hk => by
    rw [Nat.zero_add]
    exact parse_huge k hk)]
  rw [hloop]
  rfl

/-- C1 counterexample: the claim as frozen (over every bytecode accepted by
`verify`, any configuration) is false. The 2^32-byte `hugeProgram` is
accepted by `with_config(2^29, false)`, its final instruction at the
in-bounds, 8-aligned pc 4294967288 is branch-class, yet its target
`pc + 8 + offset * 8 = 2^32` is not strictly less than the program length:
`pc as i32` truncates 0xFFFFFFF8 to -8, so the code checks the wrapped
target 0 instead. -/
theorem C1_counterexample :
    (Verifier.with_config 536870912 false).verify hugeProgram = .ok () ∧
    (4294967288 : Nat) % 8 = 0 ∧
    4294967288 < hugeProgram.length ∧
    parse_instruction hugeProgram 4294967288 = .ok jaInsn ∧
    (Verifier.with_config 536870912 false).is_branch_instruction jaInsn = true ∧
    ¬ ((4294967288 : Int) + 8 + jaInsn.offset * 8 < (hugeProgram.length : Int)) :=
  ⟨hugeProgram_accepted, by norm_num, by rw [hugeProgram_length]; norm_num,
   parse_huge_ja, rfl, by rw [hugeProgram_length]; norm_num [jaInsn]⟩

/-- C1 (amended): in any bytecode of at most 2^30 bytes accepted by
`verify` — the range in which the i32 arithmetic of
`calculate_branch_target` is exact; the default configuration caps programs
at 32768 bytes — every branch-class instruction at program counter `pc` has
branch target `pc + 8 + offset * 8` nonnegative, strictly less than the
program byte length, and a multiple of 8; contrapositively, such a program
containing a violating branch instruction is rejected. Beyond that size the
property fails: see the counterexample `hugeProgram`, where the `pc as i32`
truncation lets an out-of-bounds target through. -/
theorem C1_branch_targets_valid (v : Verifier) (code : List Nat) (pc : Nat)
    (insn : Instruction)
    (hbound : code.length ≤ 1073741824)
    (hok : v.verify code = .ok ())
    (hpc8 : pc % 8 = 0) (hpc : pc < code.length)
    (hparse : parse_instruction code pc = .ok insn)
    (hbr : v.is_branch_instruction insn = true) :
    0 ≤ (pc : Int) + 8 + insn.offset * 8 ∧
    (pc : Int) + 8 + insn.offset * 8 < (code.length : Int) ∧
    ((pc : Int) + 8 + insn.offset * 8) % 8 = 0 := by
  obtain ⟨hlen, hcount, ts, hts, hcheck⟩ := verify_ok_parts hok
  have hk : pc / 8 < code.length / 8 := by omega
  obtain ⟨insn2, hp2, hv2, hb2⟩ :=
    verifyInsns_ok_spec v code (code.length / 8) 0 ts hts (pc / 8) hk
  have hpk : 0 + 8 * (pc / 8) = pc := by omega
  rw [hpk] at hp2 hb2
  rw [hparse] at hp2
  obtain rfl : insn = insn2 := Except.ok.inj hp2
  obtain ⟨t, hct, htmem⟩ := hb2 hbr
  obtain ⟨ht0, hteq⟩ := calculate_ok_value hct
  obtain ⟨-, hofflo, hoffhi⟩ := parse_ok_fields hparse
  have hw1 : wrap32 ((pc : Nat) : Int) = ((pc : Nat) : Int) :=
    wrap32_eq_self (by omega) (by omega)
  have hw2 : wrap32 (((pc : Nat) : Int) + 8 + insn.offset * 8) =
      ((pc : Nat) : Int) + 8 + insn.offset * 8 :=
    wrap32_eq_self (by omega) (by omega)
  rw [hw1, hw2] at hteq
  obtain ⟨htlt, htmod⟩ := checkBranchTargets_ok_spec hcheck t htmem
  rw [hteq] at ht0 htlt htmod
  exact ⟨ht0, htlt, htmod⟩

/-- Witness for C1: the accepted two-instruction program `JA +0; EXIT` has
its (sole) branch target `0 + 8 + 0*8 = 8` in bounds and aligned. -/
theorem C1_witness :
    0 ≤ (0 : Int) + 8 + 0 * 8 ∧
    (0 : Int) + 8 + 0 * 8 < (16 : Int) ∧
    ((0 : Int) + 8 + 0 * 8) % 8 = 0 :=
  C1_branch_targets_valid Verifier.new
    [0x05, 0, 0, 0, 0, 0, 0, 0, 0x95, 0, 0, 0, 0, 0, 0, 0] 0
    { opcode := 5, dst_reg := 0, src_reg := 0, offset := 0, immediate := 0 }
    (by norm_num) (by decide) (by decide) (by norm_num) (by decide) (by decide)

/-- C3: `verify` rejects any bytecode whose length is not a multiple of 8
with the invalid-length rejection, and any bytecode whose instruction count
`length / 8` exceeds `max_instructions` with the program-too-large rejection;
these checks precede every per-instruction check, so in particular a 7-byte
input is rejected for invalid length regardless of its contents. -/
theorem C3_length_and_count_checked_first (v : Verifier) (code : List Nat) :
    (code.length % 8 ≠ 0 → v.verify code = .error .invalidLength) ∧
    (code.length % 8 = 0 → v.max_instructions < code.length / 8 →
      v.verify code = .error (.programTooLarge (code.length / 8) v.max_instructions)) ∧
    (code.length = 7 → v.verify code = .error .invalidLength) := by
  refine ⟨fun h => ?_, fun h h2 => ?_, fun h => ?_⟩
  · simp [Verifier.verify, h]
  · simp [Verifier.verify, h, h2]
  · simp [Verifier.verify, h]

/-- Witness for C3: the all-zero 7-byte input is rejected for invalid length
by a default verifier, and a 1-instruction program overflows a verifier
configured with `max_instructions = 0`. -/
theorem C3_witness :
    Verifier.new.verify [0, 0, 0, 0, 0, 0, 0] = .error .invalidLength ∧
    (Verifier.with_config 0 false).verify [0, 0, 0, 0, 0, 0, 0, 0] =
      .error (.programTooLarge 1 0) :=
  ⟨(C3_length_and_count_checked_first Verifier.new [0, 0, 0, 0, 0, 0, 0]).2.2 (by decide),
   (C3_length_and_count_checked_first (Verifier.with_config 0 false)
      [0, 0, 0, 0, 0, 0, 0, 0]).2.1 (by decide) (by decide)⟩

/-- C9: the verifier is deterministic and referentially transparent: calling
`verify` leaves the verifier's observable state unchanged, and a second call
on the same configuration and bytecode returns the same verdict (the method
takes `&self`, the `Verifier` holds only its two configuration fields, and
the embedding is a pure function of configuration and input). -/
theorem C9_verify_deterministic_and_stateless (s : Verifier) (code : List Nat) :
    (callVerify s code).2 = s ∧
    (callVerify s code).1 = (callVerify (callVerify s code).2 code).1 :=
  ⟨rfl, rfl⟩

/-- C6 counterexample: when the deadline elapses, the result returned by
`execute_instance` carries the error string "Execution timeout", not
"Timeout" as the claim states. -/
theorem C6_counterexample :
    execute_instance_result
      { timeout := 1, memory_limit := 1048576, permissions := Permissions.new .Low }
      .deadlineElapsed =
      .ok { success := false, output := none, error := some "Execution timeout",
            execution_time := 1, memory_used := 0 } ∧
    "Execution timeout" ≠ "Timeout" :=
  ⟨rfl, by decide⟩

/-- C6 (amended): whenever the worker misses the watchdog deadline — which is
`config.timeout` plus a 100 ms grace — `execute_instance` returns a non-error
`Ok` result with `success = false` and error string "Execution timeout"; the
timeout is never surfaced as a thrown failure. -/
theorem C6_amended_timeout_is_ok_result (config : ExecutionConfig) :
    execute_instance_result config .deadlineElapsed =
      .ok { success := false, output := none, error := some "Execution timeout",
            execution_time := config.timeout, memory_used := 0 } ∧
    executeDeadline config = config.timeout + 100 :=
  ⟨rfl, rfl⟩

/-- C7: the code contradicts the claimed failure atomicity. On a pool with
one available slot, `instantiate` of a cached module whose linker
instantiation fails returns an error, registers no instance, and leaves
`available_slots` at 0 instead of restoring it to 1: the provisionally
allocated slot is dropped without being released back to the pool. -/
theorem C7_failed_instantiate_leaks_pool_slot :
    (MemoryPool.State.new 1 65536).available_count = 1 ∧
    (WasmRuntime.instantiate
        { pool := MemoryPool.State.new 1 65536, instances := [] }
        (some { instantiation_fails := true }) 0).1 =
      .error "failed to instantiate module" ∧
    (WasmRuntime.instantiate
        { pool := MemoryPool.State.new 1 65536, instances := [] }
        (some { instantiation_fails := true }) 0).2.instances = [] ∧
    (WasmRuntime.instantiate
        { pool := MemoryPool.State.new 1 65536, instances := [] }
        (some { instantiation_fails := true }) 0).2.pool.available_count = 0 :=
  ⟨rfl, rfl, rfl, rfl⟩

/-- C8: with no runtime hint or the Hybrid hint, a Low-trust request is
always dispatched to the sandboxed Wasm sub-runtime, for every source text,
every workload classification, and every performance history. -/
theorem C8_low_trust_selects_wasm (analyze : String → WorkloadType)
    (history : PerformanceHistory) (request : PythonExecutionRequest)
    (hhint : request.runtime_hint = none ∨ request.runtime_hint = some .Hybrid)
    (htrust : request.trust_level = .Low) :
    select_runtime_internal analyze history request = .Wasm := by
  rcases hhint with h | h <;>
    simp [select_runtime_internal, h, select_runtime_after_hint, htrust]

/-- Witness for C8: a Low-trust request with ML-classified source
("import numpy") and no hint goes to the Wasm sub-runtime. -/
theorem C8_witness :
    select_runtime_internal (fun _ => .MachineLearning) emptyHistory
      { id := 0, code := "import numpy", runtime_hint := none,
        trust_level := .Low, timeout_ms := 1000, memory_limit_mb := 128,
        environment := [], requirements := [] } = .Wasm :=
  C8_low_trust_selects_wasm _ _ _ (Or.inl rfl) rfl

/-- C10: there is a Low-trust request that the dispatcher sends to the
native-embed (PyO3) sub-runtime: any request carrying a concrete PyO3 hint,
because the hint check precedes the trust-level check. -/
theorem C10_pyo3_hint_overrides_low_trust :
    ∃ request : PythonExecutionRequest,
      request.trust_level = .Low ∧ request.runtime_hint = some .PyO3 ∧
      ∀ (analyze : String → WorkloadType) (history : PerformanceHistory),
        select_runtime_internal analyze history request = .PyO3 :=
  ⟨{ id := 0, code := "print(1)", runtime_hint := some .PyO3,
     trust_level := .Low, timeout_ms := 1000, memory_limit_mb := 128,
     environment := [], requirements := [] },
   rfl, rfl, fun _ _ => rfl⟩

end NextRc
